import Mathlib

/-!
Verification development for the parqat JSON/Parquet converter.

The Go source (writin.go, readin.go, parqat.go) is shallowly embedded below:
dynamic JSON values decoded by `encoding/json` into `map[string]any` become an
inductive `JsonValue`; Go maps whose iteration order is unspecified become
association lists whose list order stands for one possible iteration order;
fallible pipelines return `Except` or carry an explicit error component.
-/

namespace Parqat

/-- A dynamic JSON value as Go's `encoding/json` decodes into `any`:
`nil`, `string`, `float64`, `bool`, `[]any`, or `map[string]any`.
The numeric payload is irrelevant to every claim and is modelled as a
rational standing for the decoded float64. -/
inductive JsonValue where
  | null
  | str (s : String)
  | num (x : Rat)
  | bool (b : Bool)
  | arr (elems : List JsonValue)
  | obj (fields : List (String × JsonValue))

/-- A decoded row: `map[string]any` with distinct keys, in one iteration order. -/
abbrev Row := List (String × JsonValue)

/-- The `reflect.Kind`s that `createLeafNode` in writin.go distinguishes.
JSON decoding into `any` only ever produces `kString`, `kFloat64`, `kBool`,
`kSlice` and `kMap`; the remaining kinds are kept so that `createLeafNode`
mirrors the source switch case by case. -/
inductive ValueKind where
  | kString
  | kFloat64
  | kFloat32
  | kInt
  | kInt64
  | kInt32
  | kBool
  | kSlice
  | kMap
deriving DecidableEq

/-- `reflect.TypeOf(value)` for a decoded JSON value; `none` for Go `nil`. -/
def kindOf : JsonValue → Option ValueKind
  | .null => none
  | .str _ => some .kString
  | .num _ => some .kFloat64
  | .bool _ => some .kBool
  | .arr _ => some .kSlice
  | .obj _ => some .kMap

/-- Per-field accumulated statistics, mirroring `fieldAnalysis` in writin.go.
The Go count maps `types` and `arrayTypes` become association lists; their
list order models one iteration order of the Go map. -/
structure fieldAnalysis where
  name : String
  totalCount : Nat
  nullCount : Nat
  nullable : Bool
  types : List (ValueKind × Nat)
  arrayTypes : List (ValueKind × Nat)
deriving DecidableEq

/-- `stats.types[t]++` on a count map modelled as an association list. -/
def bump : List (ValueKind × Nat) → ValueKind → List (ValueKind × Nat)
  | [], k => [(k, 1)]
  | (k', c) :: rest, k =>
      if k' = k then (k', c + 1) :: rest else (k', c) :: bump rest k

/-- Total count recorded for a kind in a count map. -/
def countKind : List (ValueKind × Nat) → ValueKind → Nat
  | [], _ => 0
  | (k', c) :: rest, k => (if k' = k then c else 0) + countKind rest k

/-- The inner loop of `buildOptimizedSchema` over array elements:
`for _, elem := range slice { if elem != nil { arrayTypes[elemType]++ } }`. -/
def observeElems (ats : List (ValueKind × Nat)) (elems : List JsonValue) :
    List (ValueKind × Nat) :=
  elems.foldl
    (fun acc e =>
      match kindOf e with
      | some k => bump acc k
      | none => acc)
    ats

/-- One observation of a field value, as performed by the loop body of
`buildOptimizedSchema` in writin.go: `totalCount++`; a nil value bumps
`nullCount` and sets `nullable` and contributes no kind; a non-nil value
bumps its kind's bucket; a slice additionally bumps an element-kind bucket
for every non-nil element (the `len(slice) > 0` guard and the element loop). -/
def observeValue (stats : fieldAnalysis) (v : JsonValue) : fieldAnalysis :=
  match kindOf v with
  | none =>
      { stats with
          totalCount := stats.totalCount + 1
          nullCount := stats.nullCount + 1
          nullable := true }
  | some k =>
      let stats' :=
        { stats with
            totalCount := stats.totalCount + 1
            types := bump stats.types k }
      match v with
      | .arr elems => { stats' with arrayTypes := observeElems stats'.arrayTypes elems }
      | _ => stats'

/-- A fresh `fieldAnalysis` as created on first sight of a field name. -/
def freshAnalysis (name : String) : fieldAnalysis :=
  { name := name, totalCount := 0, nullCount := 0, nullable := false
    types := [], arrayTypes := [] }

/-- `fieldStats[key]` update: locate the field's statistics (creating a fresh
entry on first sight, appended in first-seen order) and observe the value. -/
def updateField (st : List (String × fieldAnalysis)) (name : String) (v : JsonValue) :
    List (String × fieldAnalysis) :=
  match st with
  | [] => [(name, observeValue (freshAnalysis name) v)]
  | (n, a) :: rest =>
      if n = name then (n, observeValue a v) :: rest
      else (n, a) :: updateField rest name v

/-- Processing all fields of one sampled row. -/
def observeRow (st : List (String × fieldAnalysis)) (row : Row) :
    List (String × fieldAnalysis) :=
  row.foldl (fun acc p => updateField acc p.1 p.2) st

/-- The statistics pass of `buildOptimizedSchema` over all sampled rows. -/
def collectStats (sampleRows : List Row) : List (String × fieldAnalysis) :=
  sampleRows.foldl observeRow []

/-- Physical leaf types produced by `createLeafNode` / `parquet.String()`. -/
inductive PrimitiveType where
  | string
  | double
  | float
  | int64
  | int32
  | boolean
deriving DecidableEq

/-- The shape of a `parquet.Node` handed to the columnar writer by
`buildNodeFromStats`: a primitive leaf, possibly wrapped in
`parquet.Repeated` and/or `parquet.Optional`. -/
structure ParquetNode where
  primitive : PrimitiveType
  repeated : Bool
  optional : Bool
deriving DecidableEq

/-- `createLeafNode` in writin.go, case by case over `reflect.Kind`. -/
def createLeafNode : ValueKind → PrimitiveType
  | .kString => .string
  | .kFloat64 => .double
  | .kFloat32 => .float
  | .kInt => .int64
  | .kInt64 => .int64
  | .kInt32 => .int32
  | .kBool => .boolean
  | _ => .string

/-- One step of the dominant-type loop in `buildNodeFromStats`:
`if count > maxCount { maxCount = count; dominantType = t }`. -/
def domStep (acc : Option ValueKind × Nat) (tc : ValueKind × Nat) :
    Option ValueKind × Nat :=
  if acc.2 < tc.2 then (some tc.1, tc.2) else acc

/-- The dominant-type selection of `buildNodeFromStats`: iterate the kind
buckets in the (Go-map) iteration order given by the list, keeping the first
bucket whose count strictly exceeds the running maximum (initially 0). -/
def dominantType (types : List (ValueKind × Nat)) : Option ValueKind :=
  (types.foldl domStep ((none : Option ValueKind), 0)).1

/-- `buildNodeFromStats` in writin.go: a dominant slice kind becomes
`parquet.Repeated(parquet.String())`; any other dominant kind becomes the
matching leaf; no dominant kind defaults to `parquet.String()`; the node is
wrapped in `parquet.Optional` when `stats.nullable || stats.nullCount > 0`. -/
def buildNodeFromStats (stats : fieldAnalysis) : ParquetNode :=
  let node : ParquetNode :=
    match dominantType stats.types with
    | some .kSlice => { primitive := .string, repeated := true, optional := false }
    | some k => { primitive := createLeafNode k, repeated := false, optional := false }
    | none => { primitive := .string, repeated := false, optional := false }
  if stats.nullable || decide (0 < stats.nullCount) then
    { node with optional := true }
  else node

/-- A table schema: field name and node per column, in discovery order. -/
abbrev Schema := List (String × ParquetNode)

/-- The schema assembled from accumulated statistics (the second half of
`buildOptimizedSchema`). -/
def inferredSchema (sampleRows : List Row) : Schema :=
  (collectStats sampleRows).map (fun p => (p.1, buildNodeFromStats p.2))

/-- `buildOptimizedSchema` in writin.go: errors on an empty sample, otherwise
collects statistics and builds one node per observed field name. -/
def buildOptimizedSchema (sampleRows : List Row) : Except String Schema :=
  if sampleRows.isEmpty then .error "no sample rows provided"
  else .ok (inferredSchema sampleRows)

/-- One JSON document position of the input stream: either a document that
decodes to a row, or a malformed document at which `json.Decoder.Decode`
fails (everything after it is never reached). -/
inductive JsonTok where
  | row (r : Row)
  | bad

/-- Errors surfaced by the conversion pipeline. -/
inductive ConvError where
  | decodingError
  | schemaError
deriving DecidableEq

/-- The decode loop of `toParquetOptimized` (and of the second sampling loop
of `StreamingToParquet`): decode rows until EOF, aborting on the first
malformed document. -/
def decodeAllRows : List JsonTok → Except ConvError (List Row)
  | [] => .ok []
  | .bad :: _ => .error .decodingError
  | .row r :: rest =>
      match decodeAllRows rest with
      | .error e => .error e
      | .ok rs => .ok (r :: rs)

/-- The sampling loop of `StreamingToParquet`: decode at most `n` rows
(`for len(sampleRows) < sampleSize`), aborting on the first malformed
document, and return the sampled rows together with the undecoded remainder
of the stream. -/
def decodeUpTo : Nat → List JsonTok → Except ConvError (List Row × List JsonTok)
  | _, [] => .ok ([], [])
  | 0, rest => .ok ([], rest)
  | _ + 1, .bad :: _ => .error .decodingError
  | n + 1, .row r :: rest =>
      match decodeUpTo n rest with
      | .error e => .error e
      | .ok (rs, rem) => .ok (r :: rs, rem)

/-- Observable outcome of one forward conversion: the table committed to the
output sink (`none` when nothing was handed to the columnar writer), and the
error returned, if any. -/
structure ConvResult where
  table : Option (Schema × List Row)
  err : Option ConvError

/-- `toParquetOptimized` in writin.go (the buffered strategy): the input is
spooled to a temp file, every document is decoded before any writer exists;
a decode failure aborts with no output; zero rows is a successful empty
conversion; otherwise the schema is inferred from all rows and every row is
written, in order, in batches (batching preserves order). -/
def toParquetOptimized (input : List JsonTok) : ConvResult :=
  match decodeAllRows input with
  | .error e => { table := none, err := some e }
  | .ok allRows =>
      if allRows.isEmpty then { table := none, err := none }
      else
        match buildOptimizedSchema allRows with
        | .error _ => { table := none, err := some .schemaError }
        | .ok schema => { table := some (schema, allRows), err := none }

/-- `sampleSize` in `StreamingToParquet`. -/
def sampleSize : Nat := 1024

/-- `StreamingToParquet` in writin.go: pass 1 decodes the first `sampleSize`
documents as the sample and spools every decoded row (sample and beyond) to
a temp file, aborting on any malformed document before a writer exists; an
empty sample is a successful empty conversion; otherwise the schema is
inferred from the sample alone and pass 2 replays the spooled rows (sample
followed by remainder) to the writer in order. -/
def StreamingToParquet (input : List JsonTok) : ConvResult :=
  match decodeUpTo sampleSize input with
  | .error e => { table := none, err := some e }
  | .ok (sampleRows, remaining) =>
      match decodeAllRows remaining with
      | .error e => { table := none, err := some e }
      | .ok restRows =>
          if sampleRows.isEmpty then { table := none, err := none }
          else
            match buildOptimizedSchema sampleRows with
            | .error _ => { table := none, err := some .schemaError }
            | .ok schema => { table := some (schema, sampleRows ++ restRows), err := none }

/-- A parsed columnar table as seen by `fromParquet`: its rows in file order
(`pr.NumRows()` is the length). The row payload is abstract because the
projection logic never inspects it. -/
structure ParquetFile (α : Type) where
  rows : List α

/-- `fromParquet` in readin.go: zero declared rows yields no output; otherwise
all rows are read and, in order, `head > 0` keeps the first
`min(head, len)` rows, else `tail > 0` keeps the suffix starting at
`max(len - tail, 0)`, else all rows are kept. -/
def fromParquet {α : Type} (pr : ParquetFile α) (head tail : Int) : List α :=
  if pr.rows.length = 0 then []
  else if 0 < head then pr.rows.take (min head.toNat pr.rows.length)
  else if 0 < tail then pr.rows.drop (pr.rows.length - tail.toNat)
  else pr.rows

/-- `FromParquet` in readin.go (the io.Reader entry point): reads the whole
stream, rejects a zero-length stream with "empty input", otherwise opens the
bytes as a columnar file (`openFile` models `parquet.OpenFile`, external to
the repository) and projects its rows. -/
def FromParquet {α : Type} (openFile : List UInt8 → Except String (ParquetFile α))
    (data : List UInt8) (head tail : Int) : Except String (List α) :=
  if data.length = 0 then .error "empty input"
  else
    match openFile data with
    | .error e => .error ("opening parquet data: " ++ e)
    | .ok pr => .ok (fromParquet pr head tail)

/-- Outcome of the CLI dispatch in parqat.go's `rootCmd.RunE`. -/
inductive CliAction where
  | reverseConvert (file : String) (head tail : Int)
  | usageError
  | forwardConvert
deriving DecidableEq

/-- The dispatch logic of `rootCmd.RunE` in parqat.go: a file argument goes
straight to `FromParquetFile` with whatever head/tail were given; with no
file argument, a positive head or tail is rejected as a usage error, and
otherwise stdin is converted forward. -/
def rootCmdRun (fileArg : Option String) (head tail : Int) : CliAction :=
  match fileArg with
  | some f => .reverseConvert f head tail
  | none => if 0 < head ∨ 0 < tail then .usageError else .forwardConvert

/-- Field lookup in an association list (a Go map read `row[name]`). -/
def lookupField {α : Type} : List (String × α) → String → Option α
  | [], _ => none
  | (n, a) :: rest, name => if n = name then some a else lookupField rest name

/-- Modelled from the spec: the physical columnar writer/reader pair is an
external collaborator (the parquet-go library), absent from the repository.
Per the spec's external-interface contract, a row written against a table
schema and read back surfaces as one JSON object whose fields are exactly
the schema's columns in declared order, with null for absent or null
fields. -/
def readBackRow (schema : Schema) (row : Row) : Row :=
  schema.map (fun col => (col.1, (lookupField row col.1).getD JsonValue.null))

/-- The forward conversion followed by the reverse conversion with no
windowing: `toParquetOptimized` then, on the committed table, the external
reader (`readBackRow` per row) and `fromParquet` with head = tail = 0. -/
def roundTrip (rows : List Row) : Option (List Row) :=
  match (toParquetOptimized (rows.map JsonTok.row)).table with
  | some (schema, written) =>
      some (fromParquet { rows := written.map (readBackRow schema) } 0 0)
  | none => none

theorem countKind_bump (l : List (ValueKind × Nat)) (k k' : ValueKind) :
    countKind (bump l k) k' = countKind l k' + (if k = k' then 1 else 0) := by
  induction l with
  | nil => simp [bump, countKind]
  | cons p rest ih =>
    obtain ⟨k0, c0⟩ := p
    by_cases h : k0 = k
    · have hb : bump ((k0, c0) :: rest) k = (k0, c0 + 1) :: rest := by
        simp [bump, h]
      rw [hb]
      show (if k0 = k' then c0 + 1 else 0) + countKind rest k' =
        ((if k0 = k' then c0 else 0) + countKind rest k') + (if k = k' then 1 else 0)
      subst h
      by_cases h' : k0 = k' <;> simp [h'] <;> omega
    · have hb : bump ((k0, c0) :: rest) k = (k0, c0) :: bump rest k := by
        simp [bump, h]
      rw [hb]
      show (if k0 = k' then c0 else 0) + countKind (bump rest k) k' =
        ((if k0 = k' then c0 else 0) + countKind rest k') + (if k = k' then 1 else 0)
      rw [ih]
      omega

theorem countKind_observeElems (elems : List JsonValue) (ats : List (ValueKind × Nat))
    (k : ValueKind) :
    countKind (observeElems ats elems) k =
      countKind ats k + (elems.filter (fun e => decide (kindOf e = some k))).length := by
  induction elems generalizing ats with
  | nil => simp [observeElems]
  | cons e rest ih =>
    have hstep :
        observeElems ats (e :: rest) =
          observeElems (match kindOf e with | some k0 => bump ats k0 | none => ats) rest := rfl
    rw [hstep]
    rcases he : kindOf e with _ | k0
    · simp only [he]
      rw [ih ats]
      simp [he]
    · simp only [he]
      rw [ih (bump ats k0), countKind_bump]
      by_cases hk : k0 = k <;> simp [he, hk] <;> omega

theorem foldl_domStep_fixed (l : List (ValueKind × Nat)) (k : ValueKind) (m : Nat)
    (h : ∀ p ∈ l, p.1 ≠ k → p.2 ≤ m) :
    (l.foldl domStep (some k, m)).1 = some k := by
  induction l generalizing m with
  | nil => rfl
  | cons p rest ih =>
    obtain ⟨k', c'⟩ := p
    have hstep : domStep (some k, m) (k', c') =
        if m < c' then (some k', c') else (some k, m) := rfl
    show (rest.foldl domStep (domStep (some k, m) (k', c'))).1 = some k
    rw [hstep]
    by_cases hc : m < c'
    · have hk : k' = k := by
        by_contra hne
        exact absurd (h (k', c') (List.mem_cons_self _ _) hne) (by omega)
      subst hk
      rw [if_pos hc]
      exact ih c' (fun p hp hne =>
        le_trans (h p (List.mem_cons_of_mem _ hp) hne) (le_of_lt hc))
    · rw [if_neg hc]
      exact ih m (fun p hp hne => h p (List.mem_cons_of_mem _ hp) hne)

theorem foldl_domStep_max :
    ∀ (l : List (ValueKind × Nat)) (d : Option ValueKind) (m : Nat) (k : ValueKind) (c : Nat),
      (k, c) ∈ l → m < c → (∀ p ∈ l, p.1 ≠ k → p.2 < c) →
      (l.foldl domStep (d, m)).1 = some k := by
  intro l
  induction l with
  | nil => intro d m k c hmem; cases hmem
  | cons p rest ih =>
    intro d m k c hmem hm hmax
    obtain ⟨k', c'⟩ := p
    have hstep : domStep (d, m) (k', c') = if m < c' then (some k', c') else (d, m) := rfl
    show (rest.foldl domStep (domStep (d, m) (k', c'))).1 = some k
    rw [hstep]
    have hmax' : ∀ p ∈ rest, p.1 ≠ k → p.2 < c :=
      fun p hp hne => hmax p (List.mem_cons_of_mem _ hp) hne
    rcases List.mem_cons.mp hmem with heq | hrest
    · obtain ⟨hk, hc⟩ := Prod.mk.injEq .. ▸ heq
      subst hk; subst hc
      rw [if_pos hm]
      exact foldl_domStep_fixed rest k c (fun p hp hne => le_of_lt (hmax' p hp hne))
    · by_cases hc' : m < c'
      · rw [if_pos hc']
        by_cases hk : k' = k
        · subst hk
          by_cases hcc : c' < c
          · exact ih (some k') c' k' c hrest hcc hmax'
          · exact foldl_domStep_fixed rest k' c' (fun p hp hne =>
              le_trans (le_of_lt (hmax' p hp hne)) (by omega))
        · have hlt : c' < c := hmax (k', c') (List.mem_cons_self _ _) hk
          exact ih (some k') c' k c hrest hlt hmax'
      · rw [if_neg hc']
        exact ih d m k c hrest hm hmax'

theorem dominantType_of_max (l : List (ValueKind × Nat)) (k : ValueKind) (c : Nat)
    (hmem : (k, c) ∈ l) (hpos : 0 < c) (hmax : ∀ p ∈ l, p.1 ≠ k → p.2 < c) :
    dominantType l = some k :=
  foldl_domStep_max l none 0 k c hmem hpos hmax

theorem buildNodeFromStats_eq (stats : fieldAnalysis) :
    buildNodeFromStats stats =
      { primitive :=
          (match dominantType stats.types with
           | some ValueKind.kSlice => PrimitiveType.string
           | some k => createLeafNode k
           | none => PrimitiveType.string)
        repeated := decide (dominantType stats.types = some ValueKind.kSlice)
        optional := stats.nullable || decide (0 < stats.nullCount) } := by
  unfold buildNodeFromStats
  rcases hd : dominantType stats.types with _ | k
  · by_cases h : stats.nullable || decide (0 < stats.nullCount) <;> simp [h, hd]
  · cases k <;> by_cases h : stats.nullable || decide (0 < stats.nullCount) <;> simp [h, hd]

theorem decodeAllRows_of_bad (l : List JsonTok) (h : JsonTok.bad ∈ l) :
    decodeAllRows l = .error .decodingError := by
  induction l with
  | nil => cases h
  | cons t rest ih =>
    cases t with
    | bad => rfl
    | row r =>
      have hb : JsonTok.bad ∈ rest := by
        rcases List.mem_cons.mp h with h1 | h2
        · exact absurd h1 (by intro he; cases he)
        · exact h2
      simp [decodeAllRows, ih hb]

theorem decodeUpTo_of_bad (n : Nat) (l : List JsonTok) (h : JsonTok.bad ∈ l) :
    decodeUpTo n l = .error .decodingError ∨
      ∃ rs rem, decodeUpTo n l = .ok (rs, rem) ∧ JsonTok.bad ∈ rem := by
  induction n generalizing l with
  | zero =>
    cases l with
    | nil => cases h
    | cons t rest => exact Or.inr ⟨[], t :: rest, rfl, h⟩
  | succ n ih =>
    cases l with
    | nil => cases h
    | cons t rest =>
      cases t with
      | bad => exact Or.inl rfl
      | row r =>
        have hb : JsonTok.bad ∈ rest := by
          rcases List.mem_cons.mp h with h1 | h2
          · exact absurd h1 (by intro he; cases he)
          · exact h2
        rcases ih rest hb with herr | ⟨rs, rem, heq, hmem⟩
        · exact Or.inl (by simp [decodeUpTo, herr])
        · exact Or.inr ⟨r :: rs, rem, by simp [decodeUpTo, heq], hmem⟩

theorem decodeAllRows_eq_nil (l : List JsonTok) (h : decodeAllRows l = .ok []) : l = [] := by
  cases l with
  | nil => rfl
  | cons t rest =>
    cases t with
    | bad => simp [decodeAllRows] at h
    | row r =>
      unfold decodeAllRows at h
      rcases hr : decodeAllRows rest with e | rs <;> rw [hr] at h <;> simp at h

theorem decodeAllRows_map_row (rows : List Row) :
    decodeAllRows (rows.map JsonTok.row) = .ok rows := by
  induction rows with
  | nil => rfl
  | cons r rest ih => simp [decodeAllRows, ih]

theorem lookupField_mem {α : Type} (l : List (String × α)) (name : String) (a : α)
    (h : lookupField l name = some a) : (name, a) ∈ l := by
  induction l with
  | nil => simp [lookupField] at h
  | cons p rest ih =>
    obtain ⟨n, b⟩ := p
    by_cases hn : n = name
    · subst hn
      simp [lookupField] at h
      subst h
      exact List.mem_cons_self _ _
    · simp [lookupField, hn] at h
      exact List.mem_cons_of_mem _ (ih h)

theorem observeValue_nullable (a : fieldAnalysis) (v : JsonValue)
    (h : a.nullable = decide (0 < a.nullCount)) :
    (observeValue a v).nullable = decide (0 < (observeValue a v).nullCount) := by
  cases v <;> simp [observeValue, kindOf] <;> exact h

theorem updateField_nullable (st : List (String × fieldAnalysis)) (name : String)
    (v : JsonValue) (h : ∀ p ∈ st, p.2.nullable = decide (0 < p.2.nullCount)) :
    ∀ p ∈ updateField st name v, p.2.nullable = decide (0 < p.2.nullCount) := by
  induction st with
  | nil =>
    intro p hp
    simp [updateField] at hp
    subst hp
    exact observeValue_nullable (freshAnalysis name) v rfl
  | cons q rest ih =>
    obtain ⟨n, a⟩ := q
    intro p hp
    by_cases hn : n = name
    · subst hn
      simp only [updateField, if_pos rfl] at hp
      rcases List.mem_cons.mp hp with heq | hrest
      · subst heq
        exact observeValue_nullable a v (h (n, a) (List.mem_cons_self _ _))
      · exact h p (List.mem_cons_of_mem _ hrest)
    · simp only [updateField, if_neg hn] at hp
      rcases List.mem_cons.mp hp with heq | hrest
      · subst heq
        exact h (n, a) (List.mem_cons_self _ _)
      · exact ih (fun q hq => h q (List.mem_cons_of_mem _ hq)) p hrest

theorem observeRow_nullable (row : Row) (st : List (String × fieldAnalysis))
    (h : ∀ p ∈ st, p.2.nullable = decide (0 < p.2.nullCount)) :
    ∀ p ∈ observeRow st row, p.2.nullable = decide (0 < p.2.nullCount) := by
  induction row generalizing st with
  | nil => exact h
  | cons f rest ih =>
    have hstep : observeRow st (f :: rest) = observeRow (updateField st f.1 f.2) rest := rfl
    rw [hstep]
    exact ih (updateField st f.1 f.2) (updateField_nullable st f.1 f.2 h)

theorem collectStats_nullable (rows : List Row) :
    ∀ p ∈ collectStats rows, p.2.nullable = decide (0 < p.2.nullCount) := by
  have haux : ∀ (rs : List Row) (st : List (String × fieldAnalysis)),
      (∀ p ∈ st, p.2.nullable = decide (0 < p.2.nullCount)) →
      ∀ p ∈ rs.foldl observeRow st, p.2.nullable = decide (0 < p.2.nullCount) := by
    intro rs
    induction rs with
    | nil => intro st h; exact h
    | cons r rest ih =>
      intro st h
      exact ih (observeRow st r) (observeRow_nullable r st h)
  exact haux rows [] (by intro p hp; cases hp)

theorem readBackRow_names (schema : Schema) (row : Row) :
    (readBackRow schema row).map Prod.fst = schema.map Prod.fst := by
  simp [readBackRow]

/-- C1 counterexample: for the single sampled row `{"tags":["a"]}` the field
`tags` has dominant observed kind array, yet the schema node built for it is
`Repeated(String)` — a native repeated container (`repeated = true`), not a
single re-serialized text column — so a repeated physical type IS handed to
the columnar writer, refuting the claim as stated. -/
theorem C1_counterexample :
    buildOptimizedSchema [[("tags", JsonValue.arr [JsonValue.str "a"])]] =
      Except.ok [("tags", ⟨PrimitiveType.string, true, false⟩)] ∧
    (⟨PrimitiveType.string, true, false⟩ : ParquetNode).repeated ≠ false :=
  ⟨rfl, by decide⟩

/-- C1 amended: a field's node is repeated exactly when its dominant observed
kind is array (in which case the element type is string), while a dominant
object kind is mapped to the plain text leaf; so nested objects become text
but arrays become a native repeated string column. -/
theorem C1_amended (stats : fieldAnalysis) :
    ((buildNodeFromStats stats).repeated =
      decide (dominantType stats.types = some ValueKind.kSlice)) ∧
    (dominantType stats.types = some ValueKind.kMap →
      (buildNodeFromStats stats).primitive = PrimitiveType.string) := by
  constructor
  · rw [buildNodeFromStats_eq]
  · intro hd
    rw [buildNodeFromStats_eq]
    simp [hd, createLeafNode]

/-- C1 amended witness: for object-dominant statistics the node is a plain
non-repeated text column. -/
theorem C1_amended_witness :
    ((buildNodeFromStats ⟨"m", 1, 0, false, [(ValueKind.kMap, 1)], []⟩).repeated =
      decide (dominantType [(ValueKind.kMap, 1)] = some ValueKind.kSlice)) ∧
    (buildNodeFromStats ⟨"m", 1, 0, false, [(ValueKind.kMap, 1)], []⟩).primitive =
      PrimitiveType.string :=
  ⟨(C1_amended ⟨"m", 1, 0, false, [(ValueKind.kMap, 1)], []⟩).1,
   (C1_amended ⟨"m", 1, 0, false, [(ValueKind.kMap, 1)], []⟩).2 rfl⟩

/-- C2 counterexample: the two `fieldAnalysis` values below carry the same
accumulated statistics — identical counts, and kind buckets that are a
permutation of each other, modelling two iteration orders of the same Go
map — yet schema building yields text for one order and 64-bit float for the
other: on a true tie the winner follows iteration order, not the
enumeration's declared order. -/
theorem C2_counterexample :
    (([(ValueKind.kString, 1), (ValueKind.kFloat64, 1)] : List (ValueKind × Nat)).Perm
      [(ValueKind.kFloat64, 1), (ValueKind.kString, 1)]) ∧
    buildNodeFromStats ⟨"x", 2, 0, false,
        [(ValueKind.kString, 1), (ValueKind.kFloat64, 1)], []⟩ =
      { primitive := PrimitiveType.string, repeated := false, optional := false } ∧
    buildNodeFromStats ⟨"x", 2, 0, false,
        [(ValueKind.kFloat64, 1), (ValueKind.kString, 1)], []⟩ =
      { primitive := PrimitiveType.double, repeated := false, optional := false } ∧
    buildNodeFromStats ⟨"x", 2, 0, false,
        [(ValueKind.kString, 1), (ValueKind.kFloat64, 1)], []⟩ ≠
      buildNodeFromStats ⟨"x", 2, 0, false,
        [(ValueKind.kFloat64, 1), (ValueKind.kString, 1)], []⟩ :=
  ⟨by decide, rfl, rfl, by decide⟩

/-- C2 amended: schema building is deterministic for a field exactly when a
single kind holds the strictly highest bucket count: any two iteration
orders of the same kind buckets (permutations with the same null statistics)
then build the same physical node. On a true tie the outcome depends on the
iteration order (see the counterexample); no fixed tie-break exists. -/
theorem C2_amended (s t : fieldAnalysis) (k : ValueKind) (c : Nat)
    (hmem : (k, c) ∈ s.types) (hpos : 0 < c)
    (hmax : ∀ p ∈ s.types, p.1 ≠ k → p.2 < c)
    (hperm : s.types.Perm t.types)
    (hnc : s.nullCount = t.nullCount) (hnb : s.nullable = t.nullable) :
    buildNodeFromStats s = buildNodeFromStats t := by
  have hds : dominantType s.types = some k := dominantType_of_max s.types k c hmem hpos hmax
  have hmem' : (k, c) ∈ t.types := hperm.mem_iff.mp hmem
  have hmax' : ∀ p ∈ t.types, p.1 ≠ k → p.2 < c :=
    fun p hp => hmax p (hperm.mem_iff.mpr hp)
  have hdt : dominantType t.types = some k := dominantType_of_max t.types k c hmem' hpos hmax'
  rw [buildNodeFromStats_eq, buildNodeFromStats_eq, hds, hdt, hnc, hnb]

/-- C2 amended witness: with a unique strictly dominant kind (string seen
twice, float64 once), both iteration orders build the same node. -/
theorem C2_amended_witness :
    buildNodeFromStats ⟨"y", 3, 0, false,
        [(ValueKind.kString, 2), (ValueKind.kFloat64, 1)], []⟩ =
      buildNodeFromStats ⟨"y", 3, 0, false,
        [(ValueKind.kFloat64, 1), (ValueKind.kString, 2)], []⟩ :=
  C2_amended ⟨"y", 3, 0, false, [(ValueKind.kString, 2), (ValueKind.kFloat64, 1)], []⟩
    ⟨"y", 3, 0, false, [(ValueKind.kFloat64, 1), (ValueKind.kString, 2)], []⟩
    ValueKind.kString 2 (by decide) (by decide) (by decide) (by decide) rfl rfl

/-- C3 counterexample: over the sample `{"a":"x"}` then `{"b":"y"}` the field
`a` is absent from the second sampled row, yet its column is not marked
nullable (`optional = false`): absence never triggers nullability in the
schema builder, refuting the claimed iff. -/
theorem C3_counterexample :
    buildOptimizedSchema [[("a", JsonValue.str "x")], [("b", JsonValue.str "y")]] =
      Except.ok [("a", ⟨PrimitiveType.string, false, false⟩),
        ("b", ⟨PrimitiveType.string, false, false⟩)] ∧
    "a" ∉ ([("b", JsonValue.str "y")] : Row).map Prod.fst :=
  ⟨rfl, by decide⟩

/-- C3 amended: a field's column is marked nullable if and only if a null
value was observed for it (its null count is nonzero); absence of the field
from some sampled rows has no effect on nullability. -/
theorem C3_amended (rows : List Row) (name : String) (a : fieldAnalysis)
    (h : lookupField (collectStats rows) name = some a) :
    ((buildNodeFromStats a).optional = true ↔ 0 < a.nullCount) := by
  have hmem : (name, a) ∈ collectStats rows := lookupField_mem _ _ _ h
  have hnb : a.nullable = decide (0 < a.nullCount) :=
    collectStats_nullable rows (name, a) hmem
  rw [buildNodeFromStats_eq]
  simp [hnb]

/-- C3 amended witness: a field observed once with value null gets a nullable
column. -/
theorem C3_amended_witness :
    ((buildNodeFromStats ⟨"a", 1, 1, true, [], []⟩).optional = true ↔
      0 < (⟨"a", 1, 1, true, [], []⟩ : fieldAnalysis).nullCount) :=
  C3_amended [[("a", JsonValue.null)]] "a" ⟨"a", 1, 1, true, [], []⟩ rfl

/-- C4: a malformed JSON document anywhere in the input stream makes both the
buffered conversion (`toParquetOptimized`) and the streaming conversion
(`StreamingToParquet`) return a decoding error with no table committed to
the output sink: every document is decoded before a writer is ever created. -/
theorem C4_malformed_aborts (input : List JsonTok) (h : JsonTok.bad ∈ input) :
    toParquetOptimized input = { table := none, err := some ConvError.decodingError } ∧
    StreamingToParquet input = { table := none, err := some ConvError.decodingError } := by
  constructor
  · unfold toParquetOptimized
    rw [decodeAllRows_of_bad input h]
  · unfold StreamingToParquet
    rcases decodeUpTo_of_bad sampleSize input h with herr | ⟨rs, rem, heq, hmem⟩
    · rw [herr]
    · rw [heq]
      simp [decodeAllRows_of_bad rem hmem]

/-- C4 witness: a single malformed document aborts both strategies with a
decoding error and no output. -/
theorem C4_malformed_aborts_witness :
    toParquetOptimized [JsonTok.bad] =
      { table := none, err := some ConvError.decodingError } ∧
    StreamingToParquet [JsonTok.bad] =
      { table := none, err := some ConvError.decodingError } :=
  C4_malformed_aborts [JsonTok.bad] (List.mem_singleton.mpr rfl)

/-- C5: an input from which zero rows are decoded completes both forward
strategies successfully with no output table, and the reverse direction with
a declared row count of zero yields no output rows. -/
theorem C5_empty_is_valid (input : List JsonTok) (α : Type) (pr : ParquetFile α)
    (head tail : Int) (hdec : decodeAllRows input = .ok [])
    (hpr : pr.rows.length = 0) :
    toParquetOptimized input = { table := none, err := none } ∧
    StreamingToParquet input = { table := none, err := none } ∧
    fromParquet pr head tail = [] := by
  have hnil : input = [] := decodeAllRows_eq_nil input hdec
  subst hnil
  refine ⟨rfl, rfl, ?_⟩
  unfold fromParquet
  rw [if_pos hpr]

/-- C5 witness: the empty input stream and a zero-row table. -/
theorem C5_empty_is_valid_witness :
    toParquetOptimized [] = { table := none, err := none } ∧
    StreamingToParquet [] = { table := none, err := none } ∧
    fromParquet (⟨[]⟩ : ParquetFile Nat) 0 0 = [] :=
  C5_empty_is_valid [] Nat ⟨[]⟩ 0 0 rfl rfl

/-- C6: the projection yields the first `min(head, totalRows)` rows in file
order when `head > 0`, otherwise the last `min(tail, totalRows)` rows in
file order (not reversed) when `tail > 0`, and otherwise all rows in file
order. -/
theorem C6_windowing (α : Type) (pr : ParquetFile α) (head tail : Int) :
    fromParquet pr head tail =
      if 0 < head then pr.rows.take (min head.toNat pr.rows.length)
      else if 0 < tail then
        pr.rows.drop (pr.rows.length - min tail.toNat pr.rows.length)
      else pr.rows := by
  unfold fromParquet
  by_cases hlen : pr.rows.length = 0
  · have hrows : pr.rows = [] := List.length_eq_zero.mp hlen
    rw [if_pos hlen, hrows]
    by_cases hh : 0 < head
    · simp [hh]
    · by_cases ht : 0 < tail <;> simp [hh, ht]
  · rw [if_neg hlen]
    by_cases hh : 0 < head
    · rw [if_pos hh, if_pos hh]
    · rw [if_neg hh, if_neg hh]
      by_cases ht : 0 < tail
      · rw [if_pos ht, if_pos ht]
        congr 1
        omega
      · rw [if_neg ht, if_neg ht]

/-- C7: observing a null value increments the field's null and total counts
and leaves the kind multiset untouched; observing an array increments the
total count and the array kind bucket and, for every kind, adds to its
element-kind bucket exactly the number of non-null elements of that kind
(all elements, not merely the first); and observation is a total function
that also handles empty arrays and empty mappings (an empty mapping only
bumps the object bucket; nested fields are not flattened). -/
theorem C7_observe (stats : fieldAnalysis) (elems : List JsonValue)
    (fields : List (String × JsonValue)) :
    (observeValue stats JsonValue.null =
      { stats with
          totalCount := stats.totalCount + 1
          nullCount := stats.nullCount + 1
          nullable := true }) ∧
    ((observeValue stats (JsonValue.arr elems)).totalCount = stats.totalCount + 1 ∧
      (observeValue stats (JsonValue.arr elems)).nullCount = stats.nullCount ∧
      (observeValue stats (JsonValue.arr elems)).types = bump stats.types ValueKind.kSlice ∧
      ∀ k : ValueKind,
        countKind (observeValue stats (JsonValue.arr elems)).arrayTypes k =
          countKind stats.arrayTypes k +
            (elems.filter (fun e => decide (kindOf e = some k))).length) ∧
    (observeValue stats (JsonValue.obj fields) =
      { stats with
          totalCount := stats.totalCount + 1
          types := bump stats.types ValueKind.kMap }) := by
  refine ⟨rfl, ⟨rfl, rfl, rfl, ?_⟩, rfl⟩
  intro k
  exact countKind_observeElems elems stats.arrayTypes k

/-- C9: in the reverse direction, when both head and tail are positive, head
takes precedence and tail is silently ignored (the first
`min(head, totalRows)` rows are produced), the CLI dispatch with a file
argument never rejects head/tail, and the mutual-exclusivity check fires
only in the forward direction (no file argument). -/
theorem C9_head_precedence (α : Type) (pr : ParquetFile α) (head tail : Int)
    (f : String) (hh : 0 < head) (ht : 0 < tail) :
    fromParquet pr head tail = pr.rows.take (min head.toNat pr.rows.length) ∧
    rootCmdRun (some f) head tail = CliAction.reverseConvert f head tail ∧
    rootCmdRun none head tail = CliAction.usageError := by
  refine ⟨?_, rfl, ?_⟩
  · unfold fromParquet
    by_cases hlen : pr.rows.length = 0
    · have hrows : pr.rows = [] := List.length_eq_zero.mp hlen
      rw [if_pos hlen, hrows]
      simp
    · rw [if_neg hlen, if_pos hh]
  · unfold rootCmdRun
    rw [if_pos (Or.inl hh)]

/-- C9 witness: head = 1 and tail = 1 on a two-row table yield the first row;
the reverse dispatch passes both flags through and the forward dispatch
rejects them. -/
theorem C9_head_precedence_witness :
    fromParquet (⟨[10, 20]⟩ : ParquetFile Nat) 1 1 =
      ([10, 20] : List Nat).take (min (Int.toNat 1) ([10, 20] : List Nat).length) ∧
    rootCmdRun (some "data.parquet") 1 1 = CliAction.reverseConvert "data.parquet" 1 1 ∧
    rootCmdRun none 1 1 = CliAction.usageError :=
  C9_head_precedence Nat ⟨[10, 20]⟩ 1 1 "data.parquet" (by decide) (by decide)

/-- C10: the stream-based reverse conversion rejects a zero-length input byte
stream with the "empty input" error, while a well-formed table whose
declared row count is zero yields empty output and no error. -/
theorem C10_empty_stream (α : Type)
    (openFile : List UInt8 → Except String (ParquetFile α))
    (data : List UInt8) (pr : ParquetFile α) (head tail : Int)
    (hdata : data ≠ []) (hopen : openFile data = .ok pr)
    (hrows : pr.rows.length = 0) :
    FromParquet openFile [] head tail = .error "empty input" ∧
    FromParquet openFile data head tail = .ok [] := by
  refine ⟨rfl, ?_⟩
  unfold FromParquet fromParquet
  rw [if_neg (by simpa using hdata), hopen]
  simp [hrows]

/-- C10 witness: a one-byte stream opening as a zero-row table versus the
empty stream. -/
theorem C10_empty_stream_witness :
    FromParquet (fun _ => .ok (⟨[]⟩ : ParquetFile Nat)) [] 0 0 =
      .error "empty input" ∧
    FromParquet (fun _ => .ok (⟨[]⟩ : ParquetFile Nat)) [(0 : UInt8)] 0 0 =
      .ok [] :=
  C10_empty_stream Nat (fun _ => .ok ⟨[]⟩) [(0 : UInt8)] ⟨[]⟩ 0 0
    (by decide) rfl rfl

theorem map_readBackRow_names (schema : Schema) (l : List Row) :
    (l.map (readBackRow schema)).map (fun r => r.map Prod.fst) =
      List.replicate l.length (schema.map Prod.fst) := by
  induction l with
  | nil => rfl
  | cons r rest ih => simp [readBackRow_names, ih, List.replicate_succ]

/-- C8 counterexample: over the two rows `{"a":"x","b":null}` and
`{"a":"y"}`, the round trip preserves the row count but the second output
row acquires the schema column `b` (as null): its field-name set is the
schema's column set, not the input row's own set, refuting "same set of
field names as the corresponding input row". -/
theorem C8_counterexample :
    roundTrip [[("a", JsonValue.str "x"), ("b", JsonValue.null)],
        [("a", JsonValue.str "y")]] =
      some [[("a", JsonValue.str "x"), ("b", JsonValue.null)],
        [("a", JsonValue.str "y"), ("b", JsonValue.null)]] ∧
    "b" ∈ ([("a", JsonValue.str "y"), ("b", JsonValue.null)] : Row).map Prod.fst ∧
    "b" ∉ ([("a", JsonValue.str "y")] : Row).map Prod.fst :=
  ⟨rfl, by decide, by decide⟩

/-- C8 amended: for any non-empty sequence of rows the round trip succeeds
and yields the same number of rows, and every output row carries exactly the
inferred schema's field names (the union of all sampled field names, with
null for fields absent from that input row); the names equal the input
row's own names exactly when that row already has every schema field. -/
theorem C8_amended (rows : List Row) (hne : rows ≠ []) :
    roundTrip rows = some (rows.map (readBackRow (inferredSchema rows))) ∧
    (rows.map (readBackRow (inferredSchema rows))).length = rows.length ∧
    (rows.map (readBackRow (inferredSchema rows))).map (fun r => r.map Prod.fst) =
      List.replicate rows.length ((inferredSchema rows).map Prod.fst) := by
  have hne' : rows.isEmpty = false := by
    cases rows
    · exact absurd rfl hne
    · rfl
  refine ⟨?_, List.length_map _ _, map_readBackRow_names _ _⟩
  have h1 : toParquetOptimized (rows.map JsonTok.row) =
      { table := some (inferredSchema rows, rows), err := none } := by
    simp [toParquetOptimized, buildOptimizedSchema, decodeAllRows_map_row, hne']
  unfold roundTrip
  rw [h1]
  show some (fromParquet ⟨rows.map (readBackRow (inferredSchema rows))⟩ 0 0) = _
  have hlen : (rows.map (readBackRow (inferredSchema rows))).length ≠ 0 := by
    rw [List.length_map]
    intro h0
    exact hne (List.length_eq_zero.mp h0)
  unfold fromParquet
  rw [if_neg hlen]
  simp

/-- C8 amended witness: a singleton row round-trips to itself with its own
field names. -/
theorem C8_amended_witness :
    roundTrip ([[("a", JsonValue.str "x")]] : List Row) =
      some (([[("a", JsonValue.str "x")]] : List Row).map
        (readBackRow (inferredSchema [[("a", JsonValue.str "x")]]))) ∧
    (([[("a", JsonValue.str "x")]] : List Row).map
        (readBackRow (inferredSchema [[("a", JsonValue.str "x")]]))).length =
      ([[("a", JsonValue.str "x")]] : List Row).length ∧
    (([[("a", JsonValue.str "x")]] : List Row).map
        (readBackRow (inferredSchema [[("a", JsonValue.str "x")]]))).map
        (fun r => r.map Prod.fst) =
      List.replicate ([[("a", JsonValue.str "x")]] : List Row).length
        ((inferredSchema [[("a", JsonValue.str "x")]]).map Prod.fst) :=
  C8_amended [[("a", JsonValue.str "x")]] (List.cons_ne_nil _ _)

end Parqat
